import Mathlib

/-!
Shallow embedding of the VCF + phenotype core (src/vcf_pheno_core.py) and
proofs about its parsing, annotation selection, statistics and
prioritization behaviour.

Modelling conventions:
* Python floats are modelled as rationals (ℚ); the decimal literals used by
  the code (2.0, 1.5, 1.0, 0.5) are exactly representable, so the score
  arithmetic is exact in both models.  The special float spellings
  (nan/inf) and underscore digit separators are not representable and the
  numeric parsers return `none` for them; no property below depends on
  them.
* Uncaught Python exceptions are modelled as `Except.error`.
* Python dicts are modelled as insertion-ordered association lists where
  assignment to an existing key replaces its value.
* The input byte stream is modelled after line splitting, as the list of
  decoded text lines (the transport/gzip layer is byte-level I/O and is
  not part of any claim).
-/

namespace VcfPheno

instance {ε α : Type} [DecidableEq ε] [DecidableEq α] : DecidableEq (Except ε α) := fun a b =>
  match a, b with
  | .error x, .error y =>
    decidable_of_iff (x = y) ⟨fun h => by rw [h], fun h => by injection h⟩
  | .error _, .ok _ => isFalse (fun h => by injection h)
  | .ok _, .error _ => isFalse (fun h => by injection h)
  | .ok x, .ok y =>
    decidable_of_iff (x = y) ⟨fun h => by rw [h], fun h => by injection h⟩

/-!
String primitives.  The corresponding Lean core functions are defined by
well-founded recursion and do not reduce inside the kernel, so the model
uses its own structurally-recursive equivalents over the character list of
the string.  They implement exactly the Python semantics used by the code:
`s.split(sep)` with a nonempty separator, prefix tests, whitespace
stripping, and joining.
-/

/-- Worker for sSplitOn: scans left to right, emitting a chunk whenever the
separator occurs (leftmost, non-overlapping).  The fuel is an upper bound
on the number of characters consumed and is never exhausted when it starts
at the length of the string. -/
def splitGo (sep : List Char) : Nat → List Char → List Char → List (List Char)
  | _, [], acc => [acc.reverse]
  | 0, cs, acc => [acc.reverse ++ cs]
  | fuel + 1, c :: cs, acc =>
    if sep.isPrefixOf (c :: cs) then
      acc.reverse :: splitGo sep fuel (List.drop sep.length (c :: cs)) []
    else splitGo sep fuel cs (c :: acc)

/-- Python `s.split(sep)` for a nonempty separator: every occurrence of the
separator delimits a (possibly empty) chunk; a string without the
separator yields the one-element list [s]. -/
def sSplitOn (s sep : String) : List String :=
  if sep = "" then [s]
  else (splitGo sep.toList s.toList.length s.toList []).map (fun cs => ⟨cs⟩)

/-- Python `s.startswith(p)`. -/
def sStartsWith (s p : String) : Bool := p.toList.isPrefixOf s.toList

/-- Python `s.strip()` (whitespace from both ends). -/
def sTrim (s : String) : String :=
  ⟨((s.toList.dropWhile Char.isWhitespace).reverse.dropWhile Char.isWhitespace).reverse⟩

/-- Python `line.rstrip` of any trailing newline characters. -/
def rstripNl (s : String) : String :=
  ⟨(s.toList.reverse.dropWhile (fun c => c = '\n')).reverse⟩

/-- Python `sep.join(pieces)`. -/
def sJoin (sep : String) (l : List String) : String :=
  ⟨List.intercalate sep.toList (l.map String.toList)⟩

/-- Numeric value of a list of decimal digit characters, most significant
first. -/
def digitsToNat (cs : List Char) : Nat :=
  cs.foldl (fun a c => a * 10 + (c.toNat - 48)) 0

/-- Models Python `int(s)` on ordinary decimal literals: optional surrounding
whitespace, an optional sign, then one or more digits.  `none` models the
`ValueError` raised on anything else. -/
def pyInt (s : String) : Option Int :=
  let core : List Char → Option Nat := fun t =>
    if t ≠ [] ∧ t.all Char.isDigit then some (digitsToNat t) else none
  match (sTrim s).toList with
  | '+' :: t => (core t).map (fun n => (n : Int))
  | '-' :: t => (core t).map (fun n => -(n : Int))
  | t => (core t).map (fun n => (n : Int))

/-- Exponent suffix of a float literal: optional sign then one or more
digits, scaling the given mantissa. -/
def pyFloatExp (mant : ℚ) (t : List Char) : Option ℚ :=
  let app : Bool → List Char → Option ℚ := fun neg d =>
    if d ≠ [] ∧ d.all Char.isDigit then
      some (if neg then mant / ((10 : ℚ) ^ digitsToNat d)
            else mant * ((10 : ℚ) ^ digitsToNat d))
    else none
  match t with
  | '+' :: d => app false d
  | '-' :: d => app true d
  | d => app false d

/-- Unsigned part of a float literal: integer digits and/or a fractional
part, then an optional exponent.  At least one digit must be present. -/
def pyFloatCore (cs : List Char) : Option ℚ :=
  let (ip, r1) := cs.span Char.isDigit
  let (fp, r2) :=
    match r1 with
    | '.' :: t => t.span Char.isDigit
    | _ => ([], r1)
  if ip = [] ∧ fp = [] then none
  else
    let mant : ℚ := (digitsToNat ip : ℚ) + (digitsToNat fp : ℚ) / ((10 : ℚ) ^ fp.length)
    match r2 with
    | [] => some mant
    | 'e' :: t => pyFloatExp mant t
    | 'E' :: t => pyFloatExp mant t
    | _ => none

/-- Models Python `float(s)` on ordinary decimal literals; `none` models the
`ValueError` raised on unparsable input. -/
def pyFloat (s : String) : Option ℚ :=
  match (sTrim s).toList with
  | '+' :: t => pyFloatCore t
  | '-' :: t => (pyFloatCore t).map (fun q => -q)
  | t => pyFloatCore t

/-- A value of the parsed INFO mapping: either a string (from a key=value
entry) or the Python boolean True recorded for a bare flag entry. -/
inductive InfoVal where
  | str (s : String)
  | flagT
deriving DecidableEq, Repr

/-- Python `str(...)` of an INFO value, as used by first_float. -/
def InfoVal.pyStr : InfoVal → String
  | .str s => s
  | .flagT => "True"

/-- Python dict assignment `d[k] = v` on an association list: replaces the
value of an existing key in place, otherwise appends the new binding. -/
def setKV (d : List (String × InfoVal)) (k : String) (v : InfoVal) :
    List (String × InfoVal) :=
  if d.any (fun p => p.1 = k) then
    d.map (fun p => if p.1 = k then (k, v) else p)
  else d ++ [(k, v)]

/-- INFO-column parsing (parse_vcf lines 87-95): split on ";", split each
nonempty entry at its first "=", entries without "=" become True flags. -/
def buildInfo (info : String) : List (String × InfoVal) :=
  (sSplitOn info ";").foldl
    (fun d kv =>
      if kv = "" then d
      else
        match sSplitOn kv "=" with
        | [] => d
        | [_] => setKV d kv .flagT
        | k :: rest => setKV d k (.str (sJoin "=" rest)))
    []

/-- first_float (lines 153-160): try the keys in order; the try/except wraps
only the conversion, so a present key whose value fails to parse falls
through to the next key.  Only the first comma-separated sub-value is
converted. -/
def first_float (info : List (String × InfoVal)) : List String → Option ℚ
  | [] => none
  | k :: ks =>
    match info.lookup k with
    | some v =>
      match pyFloat ((sSplitOn (InfoVal.pyStr v) ",").getD 0 "") with
      | some q => some q
      | none => first_float info ks
    | none => first_float info ks

/-- The stats dict (line 36). -/
structure Stats where
  n_total : Nat
  n_pass : Nat
  snps : Nat
  indels : Nat
  by_chrom : List (String × Nat)
  filters : List (String × Nat)
  ti : Nat
  tv : Nat
deriving DecidableEq, Repr

/-- The initial all-zero statistics. -/
def stats0 : Stats := ⟨0, 0, 0, 0, [], [], 0, 0⟩

/-- Python `d[k] = d.get(k, 0) + 1` on a counting association list. -/
def bumpKV (d : List (String × Nat)) (k : String) : List (String × Nat) :=
  if d.any (fun p => p.1 = k) then
    d.map (fun p => if p.1 = k then (p.1, p.2 + 1) else p)
  else d ++ [(k, 1)]

/-- The transition base pairs of line 79. -/
def tiPairs : List (String × String) := [("A", "G"), ("G", "A"), ("C", "T"), ("T", "C")]

/-- Per-alternate-allele statistics update (lines 76-84): single-base REF and
ALT is a SNP, split into transition/transversion by membership in tiPairs;
anything else is an indel. -/
def accAllele (ref : String) (st : Stats) (a : String) : Stats :=
  if ref.length = 1 ∧ a.length = 1 then
    if (ref, a) ∈ tiPairs then
      { st with snps := st.snps + 1, ti := st.ti + 1 }
    else
      { st with snps := st.snps + 1, tv := st.tv + 1 }
  else { st with indels := st.indels + 1 }

/-- Statistics updates for one data line (lines 71-85), given the tab-split
fields. -/
def lineStats (st : Stats) (parts : List String) : Stats :=
  let chrom := parts.getD 0 ""
  let ref := parts.getD 3 ""
  let alt := parts.getD 4 ""
  let flt := parts.getD 6 ""
  let st1 := { st with n_total := st.n_total + 1 }
  let st2 := { st1 with filters := bumpKV st1.filters flt }
  let st3 := if flt = "PASS" ∨ flt = "." then { st2 with n_pass := st2.n_pass + 1 } else st2
  let st4 := (sSplitOn alt ",").foldl (accAllele ref) st3
  { st4 with by_chrom := bumpKV st4.by_chrom chrom }

/-- The best-annotation tuple (sym, ann/cons, imp, hgvs_c, hgvs_p) as stored
in the record (lines 111/129 then 133-140). -/
structure Cand where
  gene : String
  conseq : String
  impact : String
  hgvsc : String
  hgvsp : String
deriving DecidableEq, Repr

/-- The impact precedence table with rank.get(imp, 0):
HIGH 3, MODERATE 2, LOW 1, MODIFIER 0, anything else 0 (lines 103/117). -/
def rankStr (imp : String) : Int :=
  if imp = "HIGH" then 3
  else if imp = "MODERATE" then 2
  else if imp = "LOW" then 1
  else if imp = "MODIFIER" then 0
  else 0

/-- The fixed SnpEff ANN field layout (lines 31-33); only its length (16)
matters for padding. -/
def ann_fields : List String :=
  ["Allele", "Annotation", "Impact", "Gene_Name", "Gene_ID", "Feature_Type", "Feature_ID",
   "Transcript_BioType", "Rank/Total", "HGVS.c", "HGVS.p", "cDNA.pos/cDNA.length",
   "CDS.pos/CDS.length", "AA.pos/AA.length", "Distance", "ERRORS/WARNINGS/INFO"]

/-- One ANN entry split on "|" and padded with "" up to the fixed layout
width (lines 106-107). -/
def annEntryFields (e : String) : List String :=
  let fields := sSplitOn e "|"
  fields ++ List.replicate (ann_fields.length - fields.length) ""

/-- Rank of one ANN entry: the precedence of its third (Impact) slot. -/
def annRank (e : String) : Int := rankStr ((annEntryFields e).getD 2 "")

/-- Candidate tuple of one ANN entry: (Gene_Name, Annotation, Impact,
HGVS.c, HGVS.p) = slots 3, 1, 2, 9, 10 (line 108). -/
def annCand (e : String) : Cand :=
  let f := annEntryFields e
  ⟨f.getD 3 "", f.getD 1 "", f.getD 2 "", f.getD 9 "", f.getD 10 ""⟩

/-- The best-so-far selection loop shared by the ANN path (lines 104-111)
and the CSQ path (lines 118-129): an entry replaces the current best only
when its rank is strictly greater, so the first entry of any rank seen
wins ties. -/
def annLoop (rank : String → Int) (cand : String → Cand) :
    List String → Option Cand → Int → Option Cand × Int
  | [], best, br => (best, br)
  | e :: es, best, br =>
    if br < rank e then annLoop rank cand es (some (cand e)) (rank e)
    else annLoop rank cand es best br

/-- The per-entry Python dict of the CSQ path (line 121) with its `.get`:
key i is the i-th declared field name, or the synthetic "F<i>" beyond the
declared names; missing trailing values are "".  A duplicated key is
overwritten by the later binding, so the last matching index wins. -/
def csqGetD (fields vals : List String) (name dflt : String) : String :=
  match ((List.range (max vals.length fields.length)).filter
      (fun i => fields.getD i ("F" ++ toString i) = name)).getLast? with
  | some i => vals.getD i ""
  | none => dflt

/-- Rank of one CSQ entry: the precedence of its IMPACT field (line 122/127). -/
def csqRank (fields : List String) (e : String) : Int :=
  rankStr (csqGetD fields (sSplitOn e "|") "IMPACT" "")

/-- Candidate tuple of one CSQ entry (lines 122-129), with the
Consequence-or-CONSEQUENCE fallback of line 124. -/
def csqCand (fields : List String) (e : String) : Cand :=
  let vals := sSplitOn e "|"
  let c1 := csqGetD fields vals "Consequence" ""
  let cons := if c1 = "" then csqGetD fields vals "CONSEQUENCE" "" else c1
  ⟨csqGetD fields vals "SYMBOL" "", cons, csqGetD fields vals "IMPACT" "",
   csqGetD fields vals "HGVSc" "", csqGetD fields vals "HGVSp" ""⟩

/-- The annotation-selection block (lines 100-131).  A bare ANN or CSQ flag
in INFO is the Python value True, on which `.split` raises AttributeError;
this uncaught exception is modelled as an error result. -/
def extractAnn (info : List (String × InfoVal)) (csq_fields : Option (List String)) :
    Except String (Option Cand) :=
  match info.lookup "ANN" with
  | some (.str s) => .ok (annLoop annRank annCand (sSplitOn s ",") none (-1)).1
  | some .flagT => .error "AttributeError"
  | none =>
    match info.lookup "CSQ" with
    | some (.str s) =>
      let fields := csq_fields.getD []
      .ok (annLoop (csqRank fields) (csqCand fields) (sSplitOn s ",") none (-1)).1
    | some .flagT => .error "AttributeError"
    | none => .ok none

/-- One parsed variant record (the rec dict of lines 133-140). -/
structure Rec where
  CHROM : String
  POS : Int
  REF : String
  ALT : String
  QUAL : Option ℚ
  FILTER : String
  AF : Option ℚ
  DP : Option ℚ
  MQ : Option ℚ
  AD : Option String
  GENE : Option String
  CONSEQUENCE : Option String
  IMPACT : Option String
  HGVSc : Option String
  HGVSp : Option String
  GT : Option String
deriving DecidableEq, Repr

/-- Python `dict(zip(ks, vs)).get k`: zip truncates to the shorter list and
a duplicated key keeps its last value. -/
def lookupLast (l : List (String × String)) (k : String) : Option String :=
  l.reverse.lookup k

/-- Record construction for one data line (lines 57-140), given the
tab-split fields.  The two uncaught Python exceptions are modelled as
errors: AttributeError from `.split` on a bare ANN/CSQ flag (line 102/115)
fires before the ValueError from `int(pos)` (line 134), matching statement
order. -/
def lineRecord (csq_fields : Option (List String)) (parts : List String) :
    Except String Rec :=
  let chrom := parts.getD 0 ""
  let pos := parts.getD 1 ""
  let ref := parts.getD 3 ""
  let alt := parts.getD 4 ""
  let qual := parts.getD 5 ""
  let flt := parts.getD 6 ""
  let info := parts.getD 7 ""
  let fmt : Option String := if parts.length > 8 then some (parts.getD 8 "") else none
  let sample_vals := parts.drop 9
  let gda : Option String × Option ℚ × Option String :=
    match fmt, sample_vals with
    | some f, sv0 :: _ =>
      if f = "" then (none, none, none)
      else
        let fm := (sSplitOn f ":").zip (sSplitOn sv0 ":")
        (lookupLast fm "GT", (lookupLast fm "DP").bind pyFloat, lookupLast fm "AD")
    | _, _ => (none, none, none)
  let info_dict := buildInfo info
  let af := first_float info_dict ["AF", "AF_POPMAX", "gnomAD_AF", "VAF"]
  let mq := first_float info_dict ["MQ"]
  match extractAnn info_dict csq_fields with
  | .error e => .error e
  | .ok best =>
    match pyInt pos with
    | none => .error "ValueError"
    | some p =>
      .ok {
        CHROM := chrom, POS := p, REF := ref, ALT := alt,
        QUAL := pyFloat qual, FILTER := flt,
        AF := af, DP := gda.2.1, MQ := mq, AD := gda.2.2,
        GENE := (best.map Cand.gene), CONSEQUENCE := (best.map Cand.conseq),
        IMPACT := (best.map Cand.impact),
        HGVSc := (best.map Cand.hgvsc), HGVSp := (best.map Cand.hgvsp),
        GT := gda.1 }

/-- The `Format: F1|F2|...` sub-clause of a ##INFO=<ID=CSQ header line,
modelling `re.search(Format:\s*([^">]+))` then split on "|" with strip
(lines 41-43): the text after the first "Format:", leading whitespace
dropped, up to the first quote or ">", required nonempty. -/
def extractFormat (line : String) : Option (List String) :=
  match sSplitOn line "Format:" with
  | _ :: rest0 :: restMore =>
    let after := sJoin "Format:" (rest0 :: restMore)
    let body := (after.toList.dropWhile Char.isWhitespace).takeWhile
      (fun c => c != '"' && c != '>')
    if body = [] then none
    else some ((sSplitOn ⟨body⟩ "|").map sTrim)
  | _ => none

/-- Result of the header loop: the captured CSQ schema (if any), the sample
names, and the unread remainder of the stream. -/
structure HeaderOut where
  csq_fields : Option (List String)
  samples : List String
  rest : List String
deriving Repr

/-- CSQ-schema capture of one ##-metadata line (lines 40-43): a failed
Format search leaves the previous schema in place. -/
def csqUpdate (line : String) (csq : Option (List String)) : Option (List String) :=
  if sStartsWith line "##INFO=<ID=CSQ" then
    match extractFormat line with
    | some f => some f
    | none => csq
  else csq

/-- The header loop (lines 38-49): consumes metadata lines, capturing the
CSQ schema on the way, and stops at (and consumes) the #CHROM line,
capturing the sample names from its columns 10+ if it has more than 8
columns.  Lines that are neither ##-metadata nor the #CHROM line are
consumed and ignored; if no #CHROM line exists the whole stream is
consumed. -/
def headerScan : List String → Option (List String) → HeaderOut
  | [], csq => ⟨csq, [], []⟩
  | line :: ls, csq =>
    if sStartsWith line "##" then headerScan ls (csqUpdate line csq)
    else if sStartsWith line "#CHROM" then
      let parts := sSplitOn (rstripNl line) "\t"
      ⟨csq, if parts.length > 8 then parts.drop 9 else [], ls⟩
    else headerScan ls csq

/-- The data loop (lines 51-143): skips empty and #-prefixed lines, skips
lines with fewer than 8 tab-separated fields, otherwise accumulates the
statistics and the record, stopping as soon as the record count has
reached max_variants. -/
def dataLoop (csq : Option (List String)) (maxv : Int) :
    List String → List Rec → Stats → Except String (List Rec × Stats)
  | [], recs, st => .ok (recs, st)
  | line :: ls, recs, st =>
    if line = "" ∨ sStartsWith line "#" then dataLoop csq maxv ls recs st
    else
      let parts := sSplitOn (rstripNl line) "\t"
      if parts.length < 8 then dataLoop csq maxv ls recs st
      else
        let st' := lineStats st parts
        match lineRecord csq parts with
        | .error e => .error e
        | .ok rec =>
          let recs' := recs ++ [rec]
          if maxv ≤ (recs'.length : Int) then .ok (recs', st')
          else dataLoop csq maxv ls recs' st'

/-- The value returned by parse_vcf (line 145): the records, the sample
names and the statistics. -/
structure ParseOut where
  records : List Rec
  samples : List String
  stats : Stats
deriving DecidableEq, Repr

/-- parse_vcf (lines 28-145) over the decoded line sequence.  An error
models an uncaught Python exception escaping the call (in which case the
caller receives neither records nor statistics). -/
def parse_vcf (lines : List String) (maxv : Int) : Except String ParseOut :=
  let h := headerScan lines none
  (dataLoop h.csq_fields maxv h.rest [] stats0).map (fun rs => ⟨rs.1, h.samples, rs.2⟩)

/-!
The Prioritizer (prioritize, lines 214-225).  Its input is a scored
DataFrame: variant rows as produced by parse_vcf, with the PHENO_MATCH /
PHENO_SCORE / PANEL_MATCH columns added by phenotype_score.  Its output
order is produced by
sort_values(["PANEL_MATCH","PHENO_MATCH","PRIORITY_SCORE"],
ascending=[False,False,False]), which pandas implements for a multi-column
key as a stable lexicographic sort; the model uses a stable insertion
sort by the same descending three-column key.
-/

/-- One row of a scored variant DataFrame: a parsed record plus the three
columns added by phenotype_score. -/
structure SRec where
  base : Rec
  PHENO_MATCH : Bool
  PHENO_SCORE : Nat
  PANEL_MATCH : Bool
deriving DecidableEq, Repr

/-- A row of the prioritized frame: the scored row plus the two columns
added by prioritize. -/
structure PRec where
  row : SRec
  IMPACT_RANK : ℚ
  PRIORITY_SCORE : ℚ
deriving DecidableEq, Repr

/-- f["IMPACT"].map(imp_rank).fillna(0) (line 221): an absent or
unrecognized impact becomes 0. -/
def impactRankQ : Option String → ℚ
  | some s =>
    if s = "HIGH" then 3
    else if s = "MODERATE" then 2
    else if s = "LOW" then 1
    else if s = "MODIFIER" then 0
    else 0
  | none => 0

/-- pandas Series.clip(0, 1). -/
def clip01 (q : ℚ) : ℚ := min 1 (max 0 q)

/-- The two score columns added by prioritize (lines 221-224):
IMPACT_RANK from the impact table, and
PRIORITY_SCORE = 2.0*IMPACT_RANK + 1.5*PHENO_SCORE + 1.0*rarity with
rarity = 1 - clip(AF filled with 0.5, 0, 1). -/
def scoreRow (r : SRec) : PRec :=
  let ir := impactRankQ r.base.IMPACT
  let rarity : ℚ := 1 - clip01 ((r.base.AF).getD 0.5)
  ⟨r, ir, 2.0 * ir + 1.5 * (r.PHENO_SCORE : ℚ) + 1.0 * rarity⟩

/-- The three-column sort key of line 225. -/
abbrev SortKey := Bool × Bool × ℚ

/-- Sort key of a prioritized row: (PANEL_MATCH, PHENO_MATCH,
PRIORITY_SCORE). -/
def keyOf (r : PRec) : SortKey := (r.row.PANEL_MATCH, r.row.PHENO_MATCH, r.PRIORITY_SCORE)

/-- Descending lexicographic comparison of sort keys (True before False,
larger scores before smaller): keyGe a b holds when a row with key a may
appear at or before a row with key b in the sorted output. -/
def keyGe (a b : SortKey) : Bool :=
  (a.1 && !b.1) ||
    (a.1 == b.1 &&
      ((a.2.1 && !b.2.1) || (a.2.1 == b.2.1 && decide (b.2.2 ≤ a.2.2))))

/-- Stable insertion of a row into an already sorted suffix of later rows:
the incoming (earlier) row is placed before the first later row whose key
it ties or beats. -/
def insRow (a : PRec) : List PRec → List PRec
  | [] => [a]
  | b :: bs => if keyGe (keyOf a) (keyOf b) then a :: b :: bs else b :: insRow a bs

/-- Stable sort of the prioritized rows by the descending three-column
key. -/
def sortRows : List PRec → List PRec
  | [] => []
  | a :: as => insRow a (sortRows as)

/-- prioritize (lines 214-225): add the score columns, then stably sort by
(PANEL_MATCH, PHENO_MATCH, PRIORITY_SCORE) descending. -/
def prioritize (l : List SRec) : List PRec := sortRows (l.map scoreRow)

/-!
Spec-side definitions.  These two follow the words of the specification
claims (not the code) and exist only to be compared against the code's
behaviour.
-/

/-- Modelled from the claim wording for the priority score: 2.0×impact_rank
+ 1.5×phenotype_score + 1.0×(1 − effective_allele_frequency) with the
effective allele frequency 0.5 when absent — with no clamping of the
frequency into [0, 1]. -/
def claimPriorityScore (r : SRec) : ℚ :=
  2.0 * impactRankQ r.base.IMPACT + 1.5 * (r.PHENO_SCORE : ℚ) +
    1.0 * (1 - (r.base.AF).getD 0.5)

/-- Modelled from the claim wording for allele-frequency extraction: take
the value of the first alias present; parse its first comma-separated
sub-value; absent if that value does not parse (no fallthrough to later
aliases). -/
def claimFirstFloat (info : List (String × InfoVal)) : List String → Option ℚ
  | [] => none
  | k :: ks =>
    match info.lookup k with
    | some v => pyFloat ((sSplitOn (InfoVal.pyStr v) ",").getD 0 "")
    | none => claimFirstFloat info ks

/-- The first alias whose value's first comma-separated sub-value parses as
a float — the amended characterization of first_float. -/
def firstParsable (info : List (String × InfoVal)) (keys : List String) : Option ℚ :=
  (keys.filterMap (fun k =>
    (info.lookup k).bind (fun v => pyFloat ((sSplitOn (InfoVal.pyStr v) ",").getD 0 "")))).head?

/-!
Generic ingredients for the theorems below.
-/

/-- Maximum entry rank reached by folding from the initial best rank br,
exactly as the selection loop updates its best rank. -/
def maxRank (rank : String → Int) (br : Int) (l : List String) : Int :=
  l.foldl (fun m e => max m (rank e)) br

/-- Whether the header loop reaches a #CHROM line (and hence leaves a
remainder for the data loop). -/
def findsChrom : List String → Bool
  | [] => false
  | line :: ls =>
    if sStartsWith line "##" then findsChrom ls
    else if sStartsWith line "#CHROM" then true
    else findsChrom ls

/-!
Concrete inputs and outputs used by the closed theorems below.
-/

/-- A minimal 8-column header line. -/
def hdrLine : String := "#CHROM\tPOS\tID\tREF\tALT\tQUAL\tFILTER\tINFO"

/-- A well-formed PASS SNP data line. -/
def dLine1 : String := "chr1\t100\t.\tA\tG\t50\tPASS\tAF=0.1"

/-- A second well-formed PASS SNP data line. -/
def dLine2 : String := "chr2\t200\t.\tC\tT\t50\tPASS\tAF=0.2"

/-- The record parsed from dLine1. -/
def rec1 : Rec :=
  ⟨"chr1", 100, "A", "G", some 50, "PASS", some (1/10), none, none, none,
   none, none, none, none, none, none⟩

/-- The parse result of [hdrLine, dLine1]. -/
def out1 : ParseOut :=
  ⟨[rec1], [], ⟨1, 1, 1, 0, [("chr1", 1)], [("PASS", 1)], 1, 0⟩⟩

/-- A data line whose INFO has no annotation key. -/
def dLineNoAnn : String := "chr1\t100\t.\tA\tG\t50\tPASS\tDP=10"

/-- The record parsed from dLineNoAnn: gene, consequence and impact are
absent. -/
def recNoAnn : Rec :=
  ⟨"chr1", 100, "A", "G", some 50, "PASS", none, none, none, none,
   none, none, none, none, none, none⟩

/-- A parse-time record template used to build concrete scored rows. -/
def recBlank : Rec :=
  ⟨"chr1", 100, "A", "G", none, "PASS", none, none, none, none,
   none, none, none, none, none, none⟩

/-- The output ordering relation of the Prioritizer: x may appear at or
before y. -/
abbrev RowLe (x y : PRec) : Prop := keyGe (keyOf x) (keyOf y) = true

/-!
Theorems.
-/

theorem keyGe_refl (a : SortKey) : keyGe a a = true := by
  rcases a with ⟨a1, a2, a3⟩
  simp [keyGe]

theorem keyGe_total (a b : SortKey) : keyGe a b = true ∨ keyGe b a = true := by
  rcases a with ⟨a1, a2, a3⟩; rcases b with ⟨b1, b2, b3⟩
  cases a1 <;> cases b1 <;> cases a2 <;> cases b2 <;>
    simp [keyGe] <;> exact le_total b3 a3

theorem keyGe_trans {a b c : SortKey} (h1 : keyGe a b = true) (h2 : keyGe b c = true) :
    keyGe a c = true := by
  rcases a with ⟨a1, a2, a3⟩; rcases b with ⟨b1, b2, b3⟩; rcases c with ⟨c1, c2, c3⟩
  cases a1 <;> cases b1 <;> cases c1 <;> cases a2 <;> cases b2 <;> cases c2 <;>
    simp [keyGe] at * <;> linarith

theorem insRow_perm (a : PRec) (l : List PRec) : (insRow a l).Perm (a :: l) := by
  induction l with
  | nil => exact List.Perm.refl _
  | cons b bs ih =>
    by_cases h : keyGe (keyOf a) (keyOf b) = true
    · simp [insRow, h]
    · rw [insRow, if_neg h]
      exact (ih.cons b).trans (List.Perm.swap a b bs)

theorem insRow_pairwise (a : PRec) (l : List PRec)
    (h : l.Pairwise RowLe) : (insRow a l).Pairwise RowLe := by
  induction l with
  | nil => simp [insRow, RowLe]
  | cons b bs ih =>
    rcases List.pairwise_cons.mp h with ⟨hb, hbs⟩
    by_cases hab : keyGe (keyOf a) (keyOf b) = true
    · rw [insRow, if_pos hab]
      refine List.pairwise_cons.mpr ⟨?_, h⟩
      intro x hx
      rcases List.mem_cons.mp hx with rfl | hx
      · exact hab
      · exact keyGe_trans hab (hb x hx)
    · rw [insRow, if_neg hab]
      refine List.pairwise_cons.mpr ⟨?_, ih hbs⟩
      intro x hx
      have hx' := (insRow_perm a bs).mem_iff.mp hx
      rcases List.mem_cons.mp hx' with rfl | hx'
      · rcases keyGe_total (keyOf x) (keyOf b) with hc | hc
        · exact absurd hc hab
        · exact hc
      · exact hb x hx'

theorem sortRows_perm (l : List PRec) : (sortRows l).Perm l := by
  induction l with
  | nil => exact List.Perm.refl _
  | cons a as ih => exact (insRow_perm a (sortRows as)).trans (ih.cons a)

theorem sortRows_pairwise (l : List PRec) : (sortRows l).Pairwise RowLe := by
  induction l with
  | nil => exact List.Pairwise.nil
  | cons a as ih => exact insRow_pairwise a _ ih

theorem filter_insRow (k : SortKey) (a : PRec) (l : List PRec) :
    (insRow a l).filter (fun r => decide (keyOf r = k)) =
      if keyOf a = k then a :: l.filter (fun r => decide (keyOf r = k))
      else l.filter (fun r => decide (keyOf r = k)) := by
  induction l with
  | nil => by_cases h : keyOf a = k <;> simp [insRow, h]
  | cons b bs ih =>
    by_cases hab : keyGe (keyOf a) (keyOf b) = true
    · rw [insRow, if_pos hab]
      by_cases ha : keyOf a = k <;> simp [List.filter_cons, ha]
    · rw [insRow, if_neg hab]
      by_cases ha : keyOf a = k
      · have hbk : ¬ (keyOf b = k) := by
          intro hb
          exact hab (by rw [ha, hb]; exact keyGe_refl k)
        simp [List.filter_cons, hbk, ih, ha]
      · by_cases hb : keyOf b = k <;> simp [List.filter_cons, hb, ih, ha]

theorem filter_sortRows (k : SortKey) (l : List PRec) :
    (sortRows l).filter (fun r => decide (keyOf r = k)) =
      l.filter (fun r => decide (keyOf r = k)) := by
  induction l with
  | nil => rfl
  | cons a as ih =>
    have h1 : sortRows (a :: as) = insRow a (sortRows as) := rfl
    rw [h1, filter_insRow, ih]
    by_cases ha : keyOf a = k <;> simp [List.filter_cons, ha]

/-- C1: prioritize orders the scored rows descending by the three-column
key (PANEL_MATCH, PHENO_MATCH, PRIORITY_SCORE) — every pair of output
rows, in output order, satisfies the descending comparison — and it is a
stable sort: the output is a permutation of the scored input rows in which
the rows of any fixed key value appear in exactly their original input
order (the filter by any key value is unchanged).  prioritize is a pure
function of its input, so re-running it on an identical input, ties
included, yields the identical ordering. -/
theorem prioritize_stable_sort :
    ∀ l : List SRec,
      (prioritize l).Perm (l.map scoreRow)
      ∧ (prioritize l).Pairwise RowLe
      ∧ ∀ k : SortKey,
          (prioritize l).filter (fun r => decide (keyOf r = k)) =
            (l.map scoreRow).filter (fun r => decide (keyOf r = k)) :=
  fun l => ⟨sortRows_perm (l.map scoreRow), sortRows_pairwise _, fun k => filter_sortRows k _⟩

theorem accAllele_ti_tv (ref a : String) (st : Stats) (h : st.snps = st.ti + st.tv) :
    (accAllele ref st a).snps = (accAllele ref st a).ti + (accAllele ref st a).tv := by
  unfold accAllele
  split_ifs <;> simp <;> omega

theorem foldl_accAllele_ti_tv (ref : String) (l : List String) :
    ∀ st : Stats, st.snps = st.ti + st.tv →
      (l.foldl (accAllele ref) st).snps =
        (l.foldl (accAllele ref) st).ti + (l.foldl (accAllele ref) st).tv := by
  induction l with
  | nil => intro st h; exact h
  | cons a as ih => intro st h; exact ih _ (accAllele_ti_tv ref a st h)

theorem lineStats_ti_tv (st : Stats) (parts : List String)
    (h : st.snps = st.ti + st.tv) :
    (lineStats st parts).snps = (lineStats st parts).ti + (lineStats st parts).tv := by
  simp only [lineStats]
  split_ifs with hf
  all_goals
    apply foldl_accAllele_ti_tv
    simpa using h

theorem dataLoop_ti_tv (csq : Option (List String)) (maxv : Int) :
    ∀ (ls : List String) (recs : List Rec) (st : Stats) (out : List Rec × Stats),
      st.snps = st.ti + st.tv →
      dataLoop csq maxv ls recs st = .ok out →
      out.2.snps = out.2.ti + out.2.tv := by
  intro ls
  induction ls with
  | nil =>
    intro recs st out h heq
    rw [dataLoop] at heq
    cases heq
    exact h
  | cons line ls ih =>
    intro recs st out h heq
    rw [dataLoop] at heq
    by_cases h1 : line = "" ∨ sStartsWith line "#" = true
    · rw [if_pos h1] at heq; exact ih recs st out h heq
    · rw [if_neg h1] at heq
      by_cases h2 : (sSplitOn (rstripNl line) "\t").length < 8
      · rw [if_pos h2] at heq; exact ih recs st out h heq
      · rw [if_neg h2] at heq
        cases hlr : lineRecord csq (sSplitOn (rstripNl line) "\t") with
        | error e => rw [hlr] at heq; simp at heq
        | ok rec =>
          rw [hlr] at heq
          simp only [] at heq
          by_cases h3 : maxv ≤ ((recs ++ [rec]).length : Int)
          · rw [if_pos h3] at heq
            cases heq
            exact lineStats_ti_tv st _ h
          · rw [if_neg h3] at heq
            exact ih _ _ out (lineStats_ti_tv st _ h) heq

/-- C9: after any successful parse the final statistics satisfy
snps = ti + tv, and each SNP-classified alternate allele (single-base REF
and ALT) increments exactly one of the two: the transition counter when
the (REF, ALT) pair is one of {A→G, G→A, C→T, T→C}, and the transversion
counter for every other single-base pair — identical or non-ACGT bases
included. -/
theorem stats_snps_eq_ti_add_tv :
    (∀ (lines : List String) (maxv : Int) (out : ParseOut),
        parse_vcf lines maxv = .ok out →
        out.stats.snps = out.stats.ti + out.stats.tv)
    ∧ (∀ (st : Stats) (r a : String), r.length = 1 → a.length = 1 →
        (((r, a) ∈ tiPairs →
            accAllele r st a = { st with snps := st.snps + 1, ti := st.ti + 1 })
        ∧ ((r, a) ∉ tiPairs →
            accAllele r st a = { st with snps := st.snps + 1, tv := st.tv + 1 }))) := by
  constructor
  · intro lines maxv out heq
    unfold parse_vcf at heq
    simp only [] at heq
    cases hdl : dataLoop (headerScan lines none).csq_fields maxv
        (headerScan lines none).rest [] stats0 with
    | error e => rw [hdl] at heq; simp [Except.map] at heq
    | ok rs =>
      rw [hdl] at heq
      simp only [Except.map] at heq
      cases heq
      exact dataLoop_ti_tv _ _ _ _ _ rs (by simp [stats0]) hdl
  · intro st r a h1 h2
    constructor
    · intro hmem
      unfold accAllele
      rw [if_pos ⟨h1, h2⟩, if_pos hmem]
    · intro hmem
      unfold accAllele
      rw [if_pos ⟨h1, h2⟩, if_neg hmem]

/-- Witness for stats_snps_eq_ti_add_tv: the invariant at the parse of a
concrete one-record input, and the transversion branch at the concrete
identical-base pair (A, A). -/
theorem stats_snps_eq_ti_add_tv_witness :
    (out1.stats.snps = out1.stats.ti + out1.stats.tv)
    ∧ accAllele "A" stats0 "A" =
        { stats0 with snps := stats0.snps + 1, tv := stats0.tv + 1 } :=
  ⟨stats_snps_eq_ti_add_tv.1 [hdrLine, dLine1] 500000 out1 (by with_unfolding_all rfl),
   (stats_snps_eq_ti_add_tv.2 stats0 "A" "A" (by decide) (by decide)).2 (by decide)⟩

theorem maxRank_nil (rank : String → Int) (br : Int) : maxRank rank br [] = br := rfl

theorem maxRank_cons (rank : String → Int) (br : Int) (e : String) (es : List String) :
    maxRank rank br (e :: es) = maxRank rank (max br (rank e)) es := rfl

theorem le_maxRank (rank : String → Int) (l : List String) :
    ∀ br : Int, br ≤ maxRank rank br l := by
  induction l with
  | nil => intro br; simp [maxRank]
  | cons e es ih =>
    intro br
    rw [maxRank_cons]
    exact le_trans (le_max_left br (rank e)) (ih (max br (rank e)))

theorem rank_le_maxRank (rank : String → Int) (l : List String) :
    ∀ br, ∀ e ∈ l, rank e ≤ maxRank rank br l := by
  induction l with
  | nil => simp
  | cons a as ih =>
    intro br e he
    rw [maxRank_cons]
    rcases List.mem_cons.mp he with rfl | he
    · exact le_trans (le_max_right br (rank e)) (le_maxRank rank as (max br (rank e)))
    · exact ih (max br (rank a)) e he

theorem annLoop_none_beats (rank : String → Int) (cand : String → Cand)
    (l : List String) : ∀ br best, maxRank rank br l ≤ br →
    annLoop rank cand l best br = (best, br) := by
  induction l with
  | nil => intro br best _; rfl
  | cons e es ih =>
    intro br best h
    rw [maxRank_cons] at h
    have hre : rank e ≤ br := by
      have h1 : max br (rank e) ≤ maxRank rank (max br (rank e)) es :=
        le_maxRank rank es (max br (rank e))
      have := le_trans h1 h
      simpa using le_trans (le_max_right br (rank e)) this
    have hbr : max br (rank e) = br := max_eq_left hre
    rw [hbr] at h
    simp only [annLoop, if_neg (not_lt.mpr hre)]
    exact ih br best h

theorem annLoop_beats (rank : String → Int) (cand : String → Cand)
    (l : List String) : ∀ br best, br < maxRank rank br l →
    annLoop rank cand l best br =
      ((l.find? (fun e => decide (maxRank rank br l ≤ rank e))).map cand,
        maxRank rank br l) := by
  induction l with
  | nil => intro br best h; simp [maxRank] at h
  | cons e es ih =>
    intro br best h
    rw [maxRank_cons] at h ⊢
    by_cases hre : br < rank e
    · have hbr : max br (rank e) = rank e := max_eq_right (le_of_lt hre)
      rw [hbr] at h ⊢
      simp only [annLoop, if_pos hre]
      by_cases h2 : rank e < maxRank rank (rank e) es
      · rw [ih (rank e) (some (cand e)) h2]
        have hne : ¬ (maxRank rank (rank e) es ≤ rank e) := not_le.mpr h2
        rw [List.find?_cons_of_neg _ (by simpa using hne)]
      · have heq : maxRank rank (rank e) es = rank e :=
          le_antisymm (not_lt.mp h2) (le_maxRank rank es (rank e))
        rw [annLoop_none_beats rank cand es (rank e) (some (cand e)) (le_of_eq heq)]
        rw [List.find?_cons_of_pos _ (by simp [heq])]
        simp [heq]
    · have hre' : rank e ≤ br := not_lt.mp hre
      have hbr : max br (rank e) = br := max_eq_left hre'
      rw [hbr] at h ⊢
      simp only [annLoop, if_neg hre]
      rw [ih br best h]
      have hne : ¬ (maxRank rank br es ≤ rank e) := by
        intro hle
        exact absurd (le_trans hle hre') (not_le.mpr h)
      rw [List.find?_cons_of_neg _ (by simpa using hne)]

theorem rankStr_nonneg (s : String) : 0 ≤ rankStr s := by
  unfold rankStr
  split_ifs <;> norm_num

theorem annLoop_sel (rank : String → Int) (cand : String → Cand)
    (h0 : ∀ e, 0 ≤ rank e) (l : List String) :
    (annLoop rank cand l none (-1)).1 =
      (l.find? (fun e => decide (maxRank rank (-1) l ≤ rank e))).map cand := by
  cases l with
  | nil => rfl
  | cons e es =>
    have hgt : (-1 : Int) < maxRank rank (-1) (e :: es) := by
      have h1 : rank e ≤ maxRank rank (-1) (e :: es) :=
        rank_le_maxRank rank (e :: es) (-1) e (List.mem_cons_self e es)
      have h2 : (0 : Int) ≤ rank e := h0 e
      omega
    rw [annLoop_beats rank cand (e :: es) (-1) none hgt]

/-- C4: on a multi-entry annotation payload the extractor selects the entry
whose impact has the highest precedence under
{HIGH 3, MODERATE 2, LOW 1, MODIFIER 0, unrecognized or missing 0},
first-encountered-wins among entries of equal precedence.  Formally: for
both the fixed-layout ANN path and the dynamic-layout CSQ path (any
schema), the selected candidate is built from the first entry whose rank
reaches the maximum rank of the payload; concretely, impacts LOW then HIGH
select the HIGH entry, and two HIGH entries select the first. -/
theorem ann_select_first_highest :
    (∀ payload : String,
      (annLoop annRank annCand (sSplitOn payload ",") none (-1)).1 =
        ((sSplitOn payload ",").find?
          (fun e => decide (maxRank annRank (-1) (sSplitOn payload ",") ≤ annRank e))).map
          annCand)
    ∧ (∀ (fields : List String) (payload : String),
      (annLoop (csqRank fields) (csqCand fields) (sSplitOn payload ",") none (-1)).1 =
        ((sSplitOn payload ",").find?
          (fun e => decide (maxRank (csqRank fields) (-1) (sSplitOn payload ",") ≤
            csqRank fields e))).map (csqCand fields))
    ∧ extractAnn (buildInfo "ANN=G|mis|LOW|G1||||||||,A|stop|HIGH|G2||||||||") none =
        .ok (some ⟨"G2", "stop", "HIGH", "", ""⟩)
    ∧ extractAnn (buildInfo "ANN=A|stop|HIGH|G1||||||||,C|mis|HIGH|G2||||||||") none =
        .ok (some ⟨"G1", "stop", "HIGH", "", ""⟩) :=
  ⟨fun payload => annLoop_sel annRank annCand (fun e => rankStr_nonneg _) _,
   fun fields payload => annLoop_sel (csqRank fields) (csqCand fields)
     (fun e => rankStr_nonneg _) _,
   by with_unfolding_all rfl,
   by with_unfolding_all rfl⟩

/-- C2 (divergence): on a stream with a data line but no #CHROM
column-header line, parse_vcf returns normally with an empty record list
and zeroed statistics instead of surfacing an input-format error — the
header loop consumes the entire stream and the data loop sees nothing. -/
theorem parse_vcf_no_chrom_header_silent :
    parse_vcf ["##fileformat=VCFv4.2", "chr1\t100\t.\tA\tG\t50\tPASS\tAF=0.1"] 500000 =
      .ok ⟨[], [], stats0⟩ := by
  with_unfolding_all rfl

theorem dataLoop_length_le (csq : Option (List String)) (maxv : Int) :
    ∀ (ls : List String) (recs : List Rec) (st : Stats) (out : List Rec × Stats),
      (recs.length : Int) < maxv →
      dataLoop csq maxv ls recs st = .ok out →
      (out.1.length : Int) ≤ maxv := by
  intro ls
  induction ls with
  | nil =>
    intro recs st out h heq
    rw [dataLoop] at heq
    cases heq
    exact le_of_lt h
  | cons line ls ih =>
    intro recs st out h heq
    rw [dataLoop] at heq
    by_cases h1 : line = "" ∨ sStartsWith line "#" = true
    · rw [if_pos h1] at heq; exact ih recs st out h heq
    · rw [if_neg h1] at heq
      by_cases h2 : (sSplitOn (rstripNl line) "\t").length < 8
      · rw [if_pos h2] at heq; exact ih recs st out h heq
      · rw [if_neg h2] at heq
        cases hlr : lineRecord csq (sSplitOn (rstripNl line) "\t") with
        | error e => rw [hlr] at heq; simp at heq
        | ok rec =>
          rw [hlr] at heq
          simp only [] at heq
          by_cases h3 : maxv ≤ ((recs ++ [rec]).length : Int)
          · rw [if_pos h3] at heq
            cases heq
            simp only [List.length_append, List.length_cons, List.length_nil]
            omega
          · rw [if_neg h3] at heq
            refine ih _ _ out ?_ heq
            simp only [List.length_append, List.length_cons, List.length_nil] at h3 ⊢
            omega

theorem dataLoop_append (csq : Option (List String)) (maxv : Int) :
    ∀ (ls l2 : List String) (recs : List Rec) (st : Stats) (out : List Rec × Stats),
      (recs.length : Int) < maxv →
      dataLoop csq maxv ls recs st = .ok out →
      (out.1.length : Int) = maxv →
      dataLoop csq maxv (ls ++ l2) recs st = .ok out := by
  intro ls
  induction ls with
  | nil =>
    intro l2 recs st out h heq hlen
    rw [dataLoop] at heq
    cases heq
    exact absurd hlen (by exact h.ne)
  | cons line ls ih =>
    intro l2 recs st out h heq hlen
    rw [dataLoop] at heq
    rw [List.cons_append, dataLoop]
    by_cases h1 : line = "" ∨ sStartsWith line "#" = true
    · rw [if_pos h1] at heq ⊢; exact ih l2 recs st out h heq hlen
    · rw [if_neg h1] at heq ⊢
      by_cases h2 : (sSplitOn (rstripNl line) "\t").length < 8
      · rw [if_pos h2] at heq ⊢; exact ih l2 recs st out h heq hlen
      · rw [if_neg h2] at heq ⊢
        cases hlr : lineRecord csq (sSplitOn (rstripNl line) "\t") with
        | error e => rw [hlr] at heq; simp at heq
        | ok rec =>
          simp only [hlr] at heq ⊢
          by_cases h3 : maxv ≤ ((recs ++ [rec]).length : Int)
          · rw [if_pos h3] at heq ⊢; exact heq
          · rw [if_neg h3] at heq ⊢
            refine ih l2 _ _ out ?_ heq hlen
            simp only [List.length_append, List.length_cons, List.length_nil] at h3 ⊢
            omega

theorem headerScan_append (l1 l2 : List String) :
    ∀ csq, headerScan (l1 ++ l2) csq =
      if findsChrom l1 then
        ⟨(headerScan l1 csq).csq_fields, (headerScan l1 csq).samples,
          (headerScan l1 csq).rest ++ l2⟩
      else headerScan l2 (headerScan l1 csq).csq_fields := by
  induction l1 with
  | nil => intro csq; simp [headerScan, findsChrom]
  | cons line ls ih =>
    intro csq
    by_cases hA : sStartsWith line "##" = true
    · simp only [List.cons_append, headerScan, findsChrom, hA, if_true]
      exact ih (csqUpdate line csq)
    · by_cases hB : sStartsWith line "#CHROM" = true
      · simp only [List.cons_append, headerScan, findsChrom, hA, hB, if_true,
          Bool.false_eq_true, if_false]
        rfl
      · simp only [List.cons_append, headerScan, findsChrom, hA, hB,
          Bool.false_eq_true, if_false]
        exact ih csq

theorem headerScan_no_chrom (l : List String) :
    ∀ csq, findsChrom l = false →
      (headerScan l csq).samples = [] ∧ (headerScan l csq).rest = [] := by
  induction l with
  | nil => intro csq _; exact ⟨rfl, rfl⟩
  | cons line ls ih =>
    intro csq hf
    rw [findsChrom] at hf
    by_cases hA : sStartsWith line "##" = true
    · rw [if_pos hA] at hf
      rw [headerScan, if_pos hA]
      exact ih _ hf
    · rw [if_neg hA] at hf
      by_cases hB : sStartsWith line "#CHROM" = true
      · rw [if_pos hB] at hf; exact absurd hf (by simp)
      · rw [if_neg hB] at hf
        rw [headerScan, if_neg hA, if_neg hB]
        exact ih _ hf

/-- C10 (amended): for every positive record cap, parse_vcf returns at most
max_variants records, and once an accepted parse has accumulated exactly
max_variants records, any further lines appended to the input change
nothing — they contribute neither records nor statistics (the whole parse
result is identical).  For max_variants ≤ 0 the cap is checked only after
the first record has been appended, so one record can still be returned —
see the counterexample. -/
theorem max_variants_cap :
    (∀ (lines : List String) (maxv : Int) (out : ParseOut),
        1 ≤ maxv → parse_vcf lines maxv = .ok out →
        (out.records.length : Int) ≤ maxv)
    ∧ (∀ (l1 l2 : List String) (maxv : Int) (out : ParseOut),
        1 ≤ maxv → parse_vcf l1 maxv = .ok out →
        (out.records.length : Int) = maxv →
        parse_vcf (l1 ++ l2) maxv = parse_vcf l1 maxv) := by
  constructor
  · intro lines maxv out h1 heq
    unfold parse_vcf at heq
    simp only [] at heq
    cases hdl : dataLoop (headerScan lines none).csq_fields maxv
        (headerScan lines none).rest [] stats0 with
    | error e => rw [hdl] at heq; simp [Except.map] at heq
    | ok rs =>
      rw [hdl] at heq
      simp only [Except.map] at heq
      cases heq
      exact dataLoop_length_le _ _ _ [] stats0 rs (by simpa using h1) hdl
  · intro l1 l2 maxv out h1 heq hlen
    unfold parse_vcf at heq ⊢
    simp only [] at heq ⊢
    rw [headerScan_append l1 l2 none]
    by_cases hf : findsChrom l1 = true
    · rw [if_pos hf]
      simp only []
      cases hdl : dataLoop (headerScan l1 none).csq_fields maxv
          (headerScan l1 none).rest [] stats0 with
      | error e => rw [hdl] at heq; simp [Except.map] at heq
      | ok rs =>
        rw [hdl] at heq
        simp only [Except.map] at heq
        cases heq
        simp only [] at hlen
        rw [dataLoop_append _ _ _ l2 [] stats0 rs (by simpa using h1) hdl hlen]
    · rw [if_neg hf]
      exfalso
      have hno := headerScan_no_chrom l1 none (by simpa using hf)
      rw [hno.2, dataLoop] at heq
      simp only [Except.map] at heq
      cases heq
      simp at hlen
      omega

/-- C10 (counterexample): with max_variants = 0 the parse of a two-record
input still returns one record — the cap is checked only after a record
has been appended, so the claimed bound "at most max_variants records"
fails at max_variants = 0. -/
theorem max_variants_zero_excess :
    (parse_vcf [hdrLine, dLine1, dLine2] 0).map (fun o => o.records.length) = .ok 1
    ∧ ¬ ((1 : Int) ≤ 0) :=
  ⟨by with_unfolding_all rfl, by omega⟩

/-- Witness for max_variants_cap at a concrete input: with cap 1, a
two-data-line input yields the same single-record result as its one-line
prefix. -/
theorem max_variants_cap_witness :
    ((out1.records.length : Int) ≤ 1)
    ∧ parse_vcf ([hdrLine, dLine1] ++ [dLine2]) 1 = parse_vcf [hdrLine, dLine1] 1 :=
  ⟨max_variants_cap.1 [hdrLine, dLine1] 1 out1 (by decide) (by with_unfolding_all rfl),
   max_variants_cap.2 [hdrLine, dLine1] [dLine2] 1 out1 (by decide)
     (by with_unfolding_all rfl) (by decide)⟩

theorem extractAnn_ok (info : List (String × InfoVal)) (csq : Option (List String))
    (hA : info.lookup "ANN" ≠ some .flagT)
    (hC : info.lookup "CSQ" ≠ some .flagT) :
    ∃ b, extractAnn info csq = .ok b := by
  unfold extractAnn
  cases hAnn : info.lookup "ANN" with
  | none =>
    cases hCsq : info.lookup "CSQ" with
    | none => exact ⟨none, rfl⟩
    | some v =>
      cases v with
      | str s => exact ⟨_, rfl⟩
      | flagT => exact absurd hCsq hC
  | some v =>
    cases v with
    | str s => exact ⟨_, rfl⟩
    | flagT => exact absurd hAnn hA

/-- C3 (counterexample): an 8-field data line whose position field is not
an integer literal makes record parsing raise (the uncaught ValueError
from int(pos) at line 134) instead of substituting an absent value, so
parsing does not hold for every ≥8-field line. -/
theorem lineRecord_unparsable_pos_raises :
    lineRecord none ["chr1", "foo", ".", "A", "G", "50", "PASS", "AF=0.1"] =
      .error "ValueError" := by
  with_unfolding_all rfl

/-- C3 (amended): for every data line with at least 8 tab-separated fields
whose position field parses as an integer and whose INFO field does not
carry ANN or CSQ as a bare valueless flag, record parsing never raises:
the unparsable numeric sub-fields (quality, depth, allele frequency,
mapping quality) are substituted with absent inside the record, and a line
with no fields beyond the mandatory 8 (or no sample column) gets absent
genotype, depth and allelic-depth. -/
theorem lineRecord_no_raise :
    ∀ (csq : Option (List String)) (parts : List String),
      8 ≤ parts.length →
      (pyInt (parts.getD 1 "")).isSome = true →
      (buildInfo (parts.getD 7 "")).lookup "ANN" ≠ some .flagT →
      (buildInfo (parts.getD 7 "")).lookup "CSQ" ≠ some .flagT →
      (∃ r, lineRecord csq parts = .ok r)
      ∧ (parts.length ≤ 9 → ∀ r, lineRecord csq parts = .ok r →
          r.GT = none ∧ r.DP = none ∧ r.AD = none) := by
  intro csq parts hlen hpos hA hC
  obtain ⟨b, hb⟩ := extractAnn_ok (buildInfo (parts.getD 7 "")) csq hA hC
  obtain ⟨p, hp⟩ := Option.isSome_iff_exists.mp hpos
  constructor
  · unfold lineRecord
    simp only [hb, hp]
    exact ⟨_, rfl⟩
  · intro h9 r hr
    unfold lineRecord at hr
    simp only [hb, hp] at hr
    rw [List.drop_eq_nil_of_le h9] at hr
    by_cases hgt : parts.length > 8
    · rw [if_pos hgt] at hr
      simp only [] at hr
      cases hr
      exact ⟨rfl, rfl, rfl⟩
    · rw [if_neg hgt] at hr
      simp only [] at hr
      cases hr
      exact ⟨rfl, rfl, rfl⟩

/-- Witness for lineRecord_no_raise at a concrete well-formed 8-field
line. -/
theorem lineRecord_no_raise_witness :
    (∃ r, lineRecord none ["chr1", "100", ".", "A", "G", "50", "PASS", "AF=0.1"] = .ok r)
    ∧ ((["chr1", "100", ".", "A", "G", "50", "PASS", "AF=0.1"] : List String).length ≤ 9 →
       ∀ r, lineRecord none ["chr1", "100", ".", "A", "G", "50", "PASS", "AF=0.1"] = .ok r →
         r.GT = none ∧ r.DP = none ∧ r.AD = none) :=
  lineRecord_no_raise none ["chr1", "100", ".", "A", "G", "50", "PASS", "AF=0.1"]
    (by decide) (by decide) (by decide) (by decide)

/-- A scored row with impact HIGH, phenotype score 0, and an allele
frequency of 2 — outside [0, 1] but parseable from an input INFO field. -/
def srecAF2 : SRec :=
  ⟨{ recBlank with IMPACT := some "HIGH", AF := some 2 }, false, 0, false⟩

/-- C5 (counterexample): for an allele frequency outside [0, 1] the code's
priority score differs from the claimed formula: the code clips the filled
allele frequency into [0, 1] (line 223) before subtracting, the claimed
formula does not.  At AF = 2, impact HIGH, phenotype score 0 the code
scores 6 and the claimed formula 5. -/
theorem priority_score_unclipped_false :
    (scoreRow srecAF2).PRIORITY_SCORE ≠ claimPriorityScore srecAF2
    ∧ (scoreRow srecAF2).PRIORITY_SCORE = 6
    ∧ claimPriorityScore srecAF2 = 5 := by
  have h1 : (scoreRow srecAF2).PRIORITY_SCORE = 6 := by with_unfolding_all rfl
  have h2 : claimPriorityScore srecAF2 = 5 := by with_unfolding_all rfl
  refine ⟨?_, h1, h2⟩
  rw [h1, h2]
  norm_num

/-- C5 (amended): for every scored record the priority score equals
2.0 × impact_rank + 1.5 × phenotype_score + 1.0 × (1 − clip(effective
allele frequency, 0, 1)), where impact_rank maps HIGH/MODERATE/LOW/MODIFIER
to 3/2/1/0 (absent or unrecognized to 0) and the effective allele
frequency is 0.5 when absent; in particular a record with absent allele
frequency, impact HIGH and phenotype score 0 scores exactly 6.5. -/
theorem priority_score_formula :
    (∀ r : SRec,
      (scoreRow r).PRIORITY_SCORE =
        2.0 * impactRankQ r.base.IMPACT + 1.5 * (r.PHENO_SCORE : ℚ) +
          1.0 * (1 - clip01 ((r.base.AF).getD 0.5)))
    ∧ impactRankQ (some "HIGH") = 3 ∧ impactRankQ (some "MODERATE") = 2
    ∧ impactRankQ (some "LOW") = 1 ∧ impactRankQ (some "MODIFIER") = 0
    ∧ impactRankQ none = 0 ∧ impactRankQ (some "intergenic_variant") = 0
    ∧ (scoreRow ⟨{ recBlank with IMPACT := some "HIGH" }, false, 0, false⟩).PRIORITY_SCORE
        = 6.5 := by
  refine ⟨fun r => rfl, ?_, ?_, ?_, ?_, rfl, ?_, ?_⟩ <;> with_unfolding_all rfl

/-- C6 (counterexample): a record whose INFO carries the ANN key with an
empty value gets empty-string gene, consequence and impact (the selection
still runs, on the single empty entry) — not absent fields. -/
theorem empty_ann_value_not_absent :
    (lineRecord none ["chr1", "100", ".", "A", "G", "50", "PASS", "ANN="]).map Rec.GENE =
      .ok (some "")
    ∧ (lineRecord none ["chr1", "100", ".", "A", "G", "50", "PASS", "ANN="]).map
        Rec.CONSEQUENCE = .ok (some "")
    ∧ (lineRecord none ["chr1", "100", ".", "A", "G", "50", "PASS", "ANN="]).map
        Rec.IMPACT = .ok (some "") :=
  ⟨by with_unfolding_all rfl, by with_unfolding_all rfl, by with_unfolding_all rfl⟩

/-- C6 (amended): when neither annotation key (ANN, CSQ) is present in the
info mapping, the parsed record's gene, consequence and impact are absent
— never defaulted to a string; but when such a key is present with an
empty value, the selection runs on the single empty entry and the three
fields become empty strings instead of absent. -/
theorem no_ann_keys_fields_absent :
    (∀ (csq : Option (List String)) (parts : List String) (r : Rec),
      (buildInfo (parts.getD 7 "")).lookup "ANN" = none →
      (buildInfo (parts.getD 7 "")).lookup "CSQ" = none →
      lineRecord csq parts = .ok r →
      r.GENE = none ∧ r.CONSEQUENCE = none ∧ r.IMPACT = none)
    ∧ (∀ csq : Option (List String),
        extractAnn [("ANN", InfoVal.str "")] csq = .ok (some ⟨"", "", "", "", ""⟩)) := by
  constructor
  · intro csq parts r hA hC hr
    have hex : extractAnn (buildInfo (parts.getD 7 "")) csq = .ok none := by
      unfold extractAnn
      rw [hA, hC]
    unfold lineRecord at hr
    simp only [hex] at hr
    cases hp : pyInt (parts.getD 1 "") with
    | none => rw [hp] at hr; simp at hr
    | some p =>
      rw [hp] at hr
      simp only [] at hr
      cases hr
      exact ⟨rfl, rfl, rfl⟩
  · intro csq
    with_unfolding_all rfl

/-- Witness for no_ann_keys_fields_absent at the concrete annotation-free
line dLineNoAnn. -/
theorem no_ann_keys_fields_absent_witness :
    recNoAnn.GENE = none ∧ recNoAnn.CONSEQUENCE = none ∧ recNoAnn.IMPACT = none :=
  no_ann_keys_fields_absent.1 none
    ["chr1", "100", ".", "A", "G", "50", "PASS", "DP=10"] recNoAnn
    (by with_unfolding_all rfl) (by with_unfolding_all rfl) (by with_unfolding_all rfl)

/-- C8 (counterexample): with INFO AF=abc;VAF=0.3 the first alias present
(AF) has an unparsable value; the claimed behaviour (take the first alias
present, absent if it does not parse) gives absent, but the code falls
through and returns the later alias's value 0.3. -/
theorem first_float_fallthrough :
    first_float (buildInfo "AF=abc;VAF=0.3") ["AF", "AF_POPMAX", "gnomAD_AF", "VAF"] =
      some (3/10)
    ∧ claimFirstFloat (buildInfo "AF=abc;VAF=0.3") ["AF", "AF_POPMAX", "gnomAD_AF", "VAF"] =
      none :=
  ⟨by with_unfolding_all rfl, by with_unfolding_all rfl⟩

/-- C8 (amended): the extraction tries the recognized aliases in order and
returns the value of the first alias whose value's first comma-separated
sub-value parses as a float (a present alias with an unparsable value
falls through to later aliases); the result is absent only when no alias
yields a parsable value. -/
theorem first_float_first_parsable :
    ∀ (info : List (String × InfoVal)) (keys : List String),
      first_float info keys = firstParsable info keys := by
  intro info keys
  induction keys with
  | nil => rfl
  | cons k ks ih =>
    simp only [firstParsable, List.filterMap_cons] at ih ⊢
    rw [first_float]
    cases hl : info.lookup k with
    | none => simp only [hl, Option.none_bind]; exact ih
    | some v =>
      simp only [hl, Option.some_bind]
      cases hp : pyFloat ((sSplitOn (InfoVal.pyStr v) ",").getD 0 "") with
      | none => simp only [hp]; exact ih
      | some q => simp only [hp, List.head?_cons]

theorem splitGo_ne_nil (sep : List Char) :
    ∀ (fuel : Nat) (cs acc : List Char), splitGo sep fuel cs acc ≠ [] := by
  intro fuel
  induction fuel with
  | zero => intro cs acc; cases cs <;> simp [splitGo]
  | succ n ih =>
    intro cs acc
    cases cs with
    | nil => simp [splitGo]
    | cons c cs' =>
      rw [splitGo]
      split
      · simp
      · exact ih cs' (c :: acc)

theorem sSplitOn_ne_nil (s sep : String) : sSplitOn s sep ≠ [] := by
  unfold sSplitOn
  split
  · simp
  · simpa using splitGo_ne_nil sep.toList s.toList.length s.toList []

theorem accAllele_classified (ref : String) (st : Stats) (a : String) :
    (accAllele ref st a).snps + (accAllele ref st a).indels = st.snps + st.indels + 1
    ∧ (accAllele ref st a).n_total = st.n_total := by
  unfold accAllele
  split_ifs <;> simp <;> omega

theorem foldl_accAllele_classified (ref : String) (l : List String) :
    ∀ st : Stats,
      (l.foldl (accAllele ref) st).snps + (l.foldl (accAllele ref) st).indels =
        st.snps + st.indels + l.length
      ∧ (l.foldl (accAllele ref) st).n_total = st.n_total := by
  induction l with
  | nil => intro st; exact ⟨by simp, rfl⟩
  | cons a as ih =>
    intro st
    have h1 := accAllele_classified ref st a
    have h2 := ih (accAllele ref st a)
    refine ⟨?_, by rw [List.foldl_cons, h2.2, h1.2]⟩
    rw [List.foldl_cons, h2.1, h1.1, List.length_cons]
    omega

theorem lineStats_classified (st : Stats) (parts : List String)
    (h : st.n_total ≤ st.snps + st.indels) :
    (lineStats st parts).n_total ≤ (lineStats st parts).snps + (lineStats st parts).indels := by
  have hne : sSplitOn (parts.getD 4 "") "," ≠ [] := sSplitOn_ne_nil _ _
  have hlen : 1 ≤ (sSplitOn (parts.getD 4 "") ",").length :=
    Nat.succ_le_of_lt (List.length_pos.mpr hne)
  simp only [lineStats]
  split_ifs with hf
  all_goals
    have hc := foldl_accAllele_classified (parts.getD 3 "") (sSplitOn (parts.getD 4 "") ",")
  · have := hc { st with
      n_total := st.n_total + 1,
      filters := bumpKV st.filters (parts.getD 6 ""),
      n_pass := st.n_pass + 1 }
    simp only [] at this ⊢
    omega
  · have := hc { st with
      n_total := st.n_total + 1,
      filters := bumpKV st.filters (parts.getD 6 "") }
    simp only [] at this ⊢
    omega

theorem dataLoop_classified (csq : Option (List String)) (maxv : Int) :
    ∀ (ls : List String) (recs : List Rec) (st : Stats) (out : List Rec × Stats),
      st.n_total ≤ st.snps + st.indels →
      dataLoop csq maxv ls recs st = .ok out →
      out.2.n_total ≤ out.2.snps + out.2.indels := by
  intro ls
  induction ls with
  | nil =>
    intro recs st out h heq
    rw [dataLoop] at heq
    cases heq
    exact h
  | cons line ls ih =>
    intro recs st out h heq
    rw [dataLoop] at heq
    by_cases h1 : line = "" ∨ sStartsWith line "#" = true
    · rw [if_pos h1] at heq; exact ih recs st out h heq
    · rw [if_neg h1] at heq
      by_cases h2 : (sSplitOn (rstripNl line) "\t").length < 8
      · rw [if_pos h2] at heq; exact ih recs st out h heq
      · rw [if_neg h2] at heq
        cases hlr : lineRecord csq (sSplitOn (rstripNl line) "\t") with
        | error e => rw [hlr] at heq; simp at heq
        | ok rec =>
          rw [hlr] at heq
          simp only [] at heq
          by_cases h3 : maxv ≤ ((recs ++ [rec]).length : Int)
          · rw [if_pos h3] at heq
            cases heq
            exact lineStats_classified st _ h
          · rw [if_neg h3] at heq
            exact ih _ _ out (lineStats_classified st _ h) heq

/-- Every data line counted in n_total contributes at least one alternate
allele classified as SNP or indel, so the final statistics always satisfy
n_total ≤ snps + indels.  In particular no input can ever produce the
statistics n_total = 10, snps = 3, indels = 1 of the round-trip scenario. -/
theorem parse_total_le_classified :
    ∀ (lines : List String) (maxv : Int) (out : ParseOut),
      parse_vcf lines maxv = .ok out →
      out.stats.n_total ≤ out.stats.snps + out.stats.indels := by
  intro lines maxv out heq
  unfold parse_vcf at heq
  simp only [] at heq
  cases hdl : dataLoop (headerScan lines none).csq_fields maxv
      (headerScan lines none).rest [] stats0 with
  | error e => rw [hdl] at heq; simp [Except.map] at heq
  | ok rs =>
    rw [hdl] at heq
    simp only [Except.map] at heq
    cases heq
    exact dataLoop_classified _ _ _ _ _ rs (by simp [stats0]) hdl

end VcfPheno
